import Mathlib

/-!
Verification of the MRS archive engine (`mrs.py`).

This file gives a shallow embedding of the archive engine: the DOS
timestamp codec (`_dostime`), the default obfuscation transforms
(`mrs.__mrs_default_decrypt` / `__mrs_default_encrypt`), signature
validation (`mrs.__mrs_default_signatures`), filename validation
(`_is_valid_filename`), duplicate-name resolution (`mrs.__is_duplicate`),
the content store (`mrs.__mem_read`), insertion (`mrs.add_file`),
extraction (`mrs.read`), metadata access (`mrs.get_file` / `mrs.set_file`)
and the archive merge (`mrs.add_mrs`).

Bytes are modelled as natural numbers (values < 256 in well-formed data);
machine integers carry explicit masks exactly where the source masks them.
External library collaborators (zlib compression, CRC-32, the text-codec
chain, `time.localtime`/`time.mktime`) are passed in as explicit function
parameters, mirroring their call sites.
-/

/-! ## Python string helpers -/

/-- The backslash path separator used by `_is_valid_filename` and
`add_file` (`final_name.replace('/', '\\')`). -/
def bsSep : String := "\\"

/-- The forward slash replaced by `add_file`. -/
def fwdSlash : String := "/"

/-- The backslash character. -/
def chr92 : Char := Char.ofNat 92

/-- ASCII lower-casing of one character. -/
def chLower (c : Char) : Char :=
  if 65 <= c.toNat && c.toNat <= 90 then Char.ofNat (c.toNat + 32) else c

/-- ASCII upper-casing of one character. -/
def chUpper (c : Char) : Char :=
  if 97 <= c.toNat && c.toNat <= 122 then Char.ofNat (c.toNat - 32) else c

/-- Lower-casing used by `__is_duplicate` (`str.lower`); modelled
characterwise, agreeing with Python on ASCII names. -/
def strLower (s : String) : String := String.mk (s.data.map chLower)

/-- Upper-casing used by `_is_valid_filename` (`str.upper`); modelled
characterwise, agreeing with Python on ASCII and leaving the superscript
digits of the reserved-name list unchanged, as Python does. -/
def strUpper (s : String) : String := String.mk (s.data.map chUpper)

/-- Python `str.split` on the backslash separator (`f.split(chr(92))`). -/
def splitOnBS : List Char → List (List Char)
  | [] => [[]]
  | c :: rest =>
      match splitOnBS rest with
      | [] => [[]]
      | g :: gs => if c = chr92 then [] :: g :: gs else (c :: g) :: gs

/-- The backslash-separated segments of a name, as strings. -/
def pySegments (f : String) : List String := (splitOnBS f.data).map String.mk

/-- Python `str.replace(chr47, chr92)` — characterwise, as both arguments
are single characters. -/
def pyReplaceSlash (s : String) : String :=
  String.mk (s.data.map (fun c => if c = '/' then chr92 else c))

/-! ## `_dostime`: the DOS timestamp codec -/

/-- The fields of `time.struct_time` used by `_dostime`. -/
structure TmStruct where
  tmYear : Nat
  tmMon : Nat
  tmMday : Nat
  tmHour : Nat
  tmMin : Nat
  tmSec : Nat
deriving Repr, DecidableEq

/-- State of `_dostime._time` after `set_time`. -/
structure DosTimeParts where
  hour : Nat
  minute : Nat
  second : Nat
  value : Nat
deriving Repr, DecidableEq

/-- State of `_dostime._date` after `set_date`. -/
structure DosDateParts where
  year : Nat
  month : Nat
  day : Nat
  value : Nat
deriving Repr, DecidableEq

/-- `_dostime._time.set_time` on a `time.struct_time` (the encoding
branch): `value = (sec/2 & 0x1F) | ((min & 0x3F) << 5) | ((hour & 0x1F) << 11)`. -/
def dosSetTimeS (tm : TmStruct) : DosTimeParts :=
  let hour := tm.tmHour
  let minute := tm.tmMin
  let second := tm.tmSec / 2
  { hour, minute, second,
    value := Nat.lor (Nat.lor (Nat.land second 31) ((Nat.land minute 63) <<< 5))
      ((Nat.land hour 31) <<< 11) }

/-- `_dostime._time.set_time` on an `int` (the decoding branch), exactly as
written in the source: `hour = (tm & 0x1F) >> 11`, `minute = (tm & 0x3F) >> 5`,
`second = tm & 0x1F` (the mask is applied before the shift). -/
def dosSetTimeI (v : Nat) : DosTimeParts :=
  { hour := (Nat.land v 31) >>> 11
    minute := (Nat.land v 63) >>> 5
    second := Nat.land v 31
    value := v }

/-- `_dostime._date.set_date` on a `time.struct_time` (the encoding branch):
`value = (day & 0x1F) | ((mon & 0xF) << 5) | (((year-1980) & 0x7F) << 9)`.
The source stores `tm_year - 1980`; years at or after 1980 are modelled. -/
def dosSetDateS (tm : TmStruct) : DosDateParts :=
  let year := tm.tmYear - 1980
  let month := tm.tmMon
  let day := tm.tmMday
  { year, month, day,
    value := Nat.lor (Nat.lor (Nat.land day 31) ((Nat.land month 15) <<< 5))
      ((Nat.land year 127) <<< 9) }

/-- `_dostime._date.set_date` on an `int` (the decoding branch), exactly as
written in the source: `year = (tm & 0x7F) >> 9`, `month = (tm & 0xF) >> 5`,
`day = tm & 0x1F` (the mask is applied before the shift). -/
def dosSetDateI (v : Nat) : DosDateParts :=
  { year := (Nat.land v 127) >>> 9
    month := (Nat.land v 15) >>> 5
    day := Nat.land v 31
    value := v }

/-- `_dostime.mktimedos`: rebuilds the `struct_time` fields
`(year+1980, month, day, hour, minute, second*2)` that are then handed to
`time.mktime` (an external collaborator). -/
def mktimedosStruct (t : DosTimeParts) (d : DosDateParts) : TmStruct :=
  { tmYear := d.year + 1980
    tmMon := d.month
    tmMday := d.day
    tmHour := t.hour
    tmMin := t.minute
    tmSec := t.second * 2 }

/-- Decode a packed (time16, date16) pair the way the program does: feed the
integers to `set_time` / `set_date` and run `mktimedos`. -/
def dosDecode (tv dv : Nat) : TmStruct :=
  mktimedosStruct (dosSetTimeI tv) (dosSetDateI dv)

/-! ## Default obfuscation transforms -/

/-- One byte of `mrs.__mrs_default_decrypt`:
`c = ((c >> 3) | (c << 5)) & 0xFF; out = (~c) & 0xFF`. -/
def decByte (c : Nat) : Nat :=
  Nat.xor (Nat.land (Nat.lor (c >>> 3) (c <<< 5)) 255) 255

/-- One byte of `mrs.__mrs_default_encrypt`:
`c = (~b) & 0xFF; out = ((c << 3) | (c >> 5)) & 0xFF`. -/
def encByte (b : Nat) : Nat :=
  let c := Nat.land (Nat.xor b 255) 255
  Nat.land (Nat.lor (c <<< 3) (c >>> 5)) 255

/-- `mrs.__mrs_default_decrypt(buffer, size)`: transforms the first `size`
bytes in place and returns the buffer. -/
def defaultDecrypt (buffer : List Nat) (size : Nat) : List Nat :=
  (buffer.take size).map decByte ++ buffer.drop size

/-- `mrs.__mrs_default_encrypt(buffer, size)`. -/
def defaultEncrypt (buffer : List Nat) (size : Nat) : List Nat :=
  (buffer.take size).map encByte ++ buffer.drop size

/-- Rotate an 8-bit value right by 3 (the spec's `rotate_right(byte, 3)`). -/
def ror3b (b : Nat) : Nat := b / 8 + b % 8 * 32

/-- Rotate an 8-bit value left by 3 (the spec's `rotate_left(byte, 3)`). -/
def rol3b (b : Nat) : Nat := b % 32 * 8 + b / 32

/-! ## Signature constants and validation -/

def mrsHdrMagic1 : Nat := 0x5030207
def mrsHdrMagic2 : Nat := 0x5030208
def mrsHdrMagic3 : Nat := 0x6054b50
def mrsLocalMagic1 : Nat := 0x4034b50
def mrsLocalMagic2 : Nat := 0x85840000
def mrsLocalVer : Nat := 0x14
def mrsCentralMagic1 : Nat := 0x2014b50
def mrsCentralMagic2 : Nat := 0x5024b80
def mrsCentralVerMade : Nat := 0x19
def mrsCentralVerNeeded : Nat := 0x14

/-- The three injection points of `mrs_signature_where`. -/
inductive SigWhere where
  | baseHdr
  | localHdr
  | centralDirHdr
deriving Repr, DecidableEq

/-- `mrs.__mrs_default_signatures`. -/
def defaultSignatures (w : SigWhere) (signature : Nat) : Bool :=
  match w with
  | .baseHdr =>
      signature == mrsHdrMagic1 || signature == mrsHdrMagic2 || signature == mrsHdrMagic3
  | .localHdr =>
      signature == mrsLocalMagic1 || signature == mrsLocalMagic2
  | .centralDirHdr =>
      signature == mrsCentralMagic1 || signature == mrsCentralMagic2

/-- The signature test performed at each validation site of `add_mrs`: the
check raises unless the default signatures match or a registered custom
checker accepts. -/
def sigAccepted (sigchk : Option (SigWhere → Nat → Bool)) (w : SigWhere) (signature : Nat) : Bool :=
  defaultSignatures w signature ||
    (match sigchk with
     | some f => f w signature
     | none => false)

/-! ## `_is_valid_filename` -/

/-- The reserved-name blacklist of `_is_valid_filename`. -/
def invalidNameList : List String :=
  [r".", r"..",
   r"CON", r"PRN", r"AUX", r"NUL", r"COM0", r"COM1", r"COM2", r"COM3",
   r"COM4", r"COM5", r"COM6", r"COM7", r"COM8", r"COM9", r"COM¹", r"COM²",
   r"COM³", r"LPT0", r"LPT1", r"LPT2", r"LPT3", r"LPT4", r"LPT5", r"LPT6",
   r"LPT7", r"LPT8", r"LPT9", r"LPT¹", r"LPT²", r"LPT³"]

/-- The printable members of `invalid_chars`; the control bytes 1–31 are
checked separately, as in the source. -/
def invalidCharHead : List Char :=
  ['<', '>', ':', '"', '|', '?', '*']

/-- Index of the last occurrence of `c`, or `-1` (Python `str.rfind`). -/
def lastIdxOfAux (c : Char) : List Char → Nat → Int → Int
  | [], _, best => best
  | x :: rest, i, best =>
      lastIdxOfAux c rest (i + 1) (if x == c then (i : Int) else best)

def lastIdxOf (c : Char) (cs : List Char) : Int := lastIdxOfAux c cs 0 (-1)

/-- The stem component of `os.path.splitext`: the extension is the last
dot-suffix, provided some non-dot character precedes the dot within the
basename (so `"."`, `".."` and dotfiles have no extension). -/
def splitextStem (s : String) : String :=
  let cs := s.data
  let sepIdx := lastIdxOf '/' cs
  let dotIdx := lastIdxOf '.' cs
  if sepIdx < dotIdx then
    let base := (cs.drop (sepIdx + 1).toNat).take (dotIdx - sepIdx - 1).toNat
    if base.any (fun c => c != '.') then String.mk (cs.take dotIdx.toNat) else s
  else s

/-- `_is_valid_filename(f)` as a Boolean: `true` when the source function
returns without raising. It rejects the characters `< > : " | ? *`, any
control byte 1–31, and any backslash-separated segment whose
extension-stripped stem upper-cases to a reserved name. -/
def isValidFilename (f : String) : Bool :=
  let cs := f.data
  let badChar :=
    invalidCharHead.any (fun c => cs.contains c) ||
      cs.any (fun c => 1 ≤ c.toNat && c.toNat ≤ 31)
  let badSeg :=
    (pySegments f).any
      (fun seg => invalidNameList.contains (strUpper (splitextStem seg)))
  !(badChar || badSeg)

/-! ## The duplicate-name parser of `mrs.__is_duplicate`

The source matches each display name against the anchored pattern
`(?P<fname>.+?)(?:\s\((?P<fnum>\d+)\)|)(?P<fext>\.[^.]+?|)$`.
The functions below implement exactly that pattern's backtracking
semantics: the lazy `fname` grows one character at a time; for a given
split the suffix branch `\s\(\d+\)` is tried before its empty
alternative, and the extension branch `\.[^.]+?` before its empty
alternative, the whole match being anchored at the end of the string. -/

/-- Python `\s` on the ASCII range. -/
def pyIsSpace (c : Char) : Bool :=
  c == ' ' || c == '\t' || c == '\n' || c == '\r' || c.toNat == 11 || c.toNat == 12

def isDigitChar (c : Char) : Bool := 48 ≤ c.toNat && c.toNat ≤ 57

/-- Maximal run of leading digits (how `\d+` followed by `\)` matches). -/
def digitRun : List Char → List Char × List Char
  | [] => ([], [])
  | c :: rest =>
      if isDigitChar c then
        let p := digitRun rest
        (c :: p.1, p.2)
      else ([], c :: rest)

/-- `int` on a digit string. -/
def natOfDigits (ds : List Char) : Nat :=
  ds.foldl (fun a c => a * 10 + (c.toNat - 48)) 0

/-- Try the `\s\((?P<fnum>\d+)\)` group at the front of the input. -/
def trySuffix : List Char → Option (Nat × List Char)
  | c1 :: c2 :: rest =>
      if pyIsSpace c1 && c2 == '(' then
        match digitRun rest with
        | ([], _) => none
        | (ds, r) =>
            match r with
            | ')' :: rest2 => some (natOfDigits ds, rest2)
            | _ => none
      else none
  | _ => none

/-- Try `(?P<fext>\.[^.]+?|)$` against the whole remaining input: either a
final dot-suffix with a nonempty dot-free tail, or the empty string. -/
def tryExt (cs : List Char) : Option (List Char) :=
  match cs with
  | [] => some []
  | c :: tail =>
      if c == '.' && !tail.isEmpty && !tail.contains '.' then some (c :: tail)
      else none

/-- Backtracking search for the regex match: `pre` is the current (lazy)
`fname` candidate. `.+?` cannot cross a newline. -/
def parseGo (pre : List Char) : List Char → Option (List Char × Nat × List Char)
  | [] => none
  | c :: rest =>
      if c == '\n' then none
      else
        let pre2 := pre ++ [c]
        let withSuffix :=
          match trySuffix rest with
          | some (num, rest2) =>
              match tryExt rest2 with
              | some ext => some (pre2, num, ext)
              | none => none
          | none => none
        match withSuffix with
        | some r => some r
        | none =>
            match tryExt rest with
            | some ext => some (pre2, 0, ext)
            | none => parseGo pre2 rest

/-- Parse a display name into `(fname, fnum, fext)`; a failed match leaves
the source's initial values `('', 0, '')`. -/
def parseName (s : String) : String × Nat × String :=
  match parseGo [] s.data with
  | some (f, n, e) => (String.mk f, n, String.mk e)
  | none => (r"", 0, r"")

/-! ## Data model -/

/-- One archived entry (`_mrs_file`): the display name, its encoding, and
the local/central header fields the engine reads back. The local-header
copies of size/CRC/compression mirror the central ones at all times in the
source, so a single copy is carried. -/
structure MrsFileEntry where
  filenameuc : String
  filenameenc : Nat
  dhFilename : List Nat
  dhCrc32 : Nat
  dhCompressedSize : Nat
  dhUncompressedSize : Nat
  dhCompression : Nat
  dhOffset : Nat
  dhTimeVal : Nat
  dhDateVal : Nat
  lhExtra : Option (List Nat)
  dhExtra : Option (List Nat)
  dhComment : Option (List Nat)
deriving Repr, DecidableEq

/-- The archive engine's mutable state: the entry list (`mrs.__files`), the
directory counter (`mrs.__hdr.dir_count`), and the append-only content
store (`mrs.__mem`, whose cursor always sits at the end between
operations). -/
structure ArchiveState where
  files : List MrsFileEntry
  dirCount : Nat
  mem : List Nat
deriving Repr, DecidableEq

/-- The error taxonomy surfaced by the modelled operations. -/
inductive MrsError where
  | invalidName
  | dupError
  | unicodeEnc
  | unicodeDec
  | notAMrsFile
  | invalidEncryption
  | zlibError
  | bufferError
  | indexError
  | structError
  | osError
deriving Repr, DecidableEq

/-- `mrs_dupe_behavior`. -/
inductive DupeBehavior where
  | keepNew
  | keepOld
  | keepBoth
deriving Repr, DecidableEq

/-- External library collaborators, passed to the operations exactly at
the source's call sites. `deflateNoFlush` models
`zlib.compressobj(9, 8, -15).compress(buf)` — the bytes produced by
`compress` alone, with no `flush()` (`none` models a raised exception);
`inflateRaw` models `zlib.decompress(b, -15)` (`none` models
`zlib.error`); `decStr` / `encStr` model the `_dec_str` / `_enc_str`
codec chains, returning the text with a codec id; `encWith` models
`str.encode(enc)` for a codec previously returned by `decStr`. -/
structure ExtLib where
  crc32 : List Nat → Nat
  deflateNoFlush : List Nat → Option (List Nat)
  inflateRaw : List Nat → Option (List Nat)
  localtime : Int → TmStruct
  mktime : TmStruct → Int
  decStr : List Nat → Option (String × Nat)
  encStr : String → Option (List Nat × Nat)
  encWith : String → Nat → List Nat

/-! ## `mrs.__is_duplicate` -/

/-- The renumbering loop of `__is_duplicate`:
`fnum = 2; for i in n: if i == fnum: fnum += 1; elif i != fnum: break`. -/
def chooseLoop : List Nat → Nat → Nat
  | [], f => f
  | i :: rest, f => if i = f then chooseLoop rest (f + 1) else f

/-- Stable ascending insertion (used to model Python `list.sort()`). -/
def insertAsc (x : Nat) : List Nat → List Nat
  | [] => [x]
  | y :: ys => if y ≤ x then y :: insertAsc x ys else x :: y :: ys

/-- Python `list.sort()` on naturals: sort ascending. -/
def pySort (l : List Nat) : List Nat :=
  l.foldl (fun acc x => insertAsc x acc) []

/-- The entry scan of `__is_duplicate`: parse every stored display name;
an entry with equal (case-folded) stem and extension is an exact match
when its parsed number also matches (the scan keeps the last such index),
otherwise its number joins the candidate list `n` in directory order. -/
def dupScan (files : List MrsFileEntry) (fname fext : String) (fnum : Nat) :
    Option Nat × List Nat :=
  files.enum.foldl
    (fun (acc : Option Nat × List Nat) (q : Nat × MrsFileEntry) =>
      let r := parseName q.2.filenameuc
      if strLower r.1 == strLower fname && strLower r.2.2 == strLower fext then
        if r.2.1 = fnum then (some q.1, acc.2)
        else (acc.1, acc.2 ++ [r.2.1])
      else acc)
    (none, [])

/-- `mrs.__is_duplicate(name)`: with an exact match, return its index
together with the suggested rename `"{fname} ({fnum}){fext}"`, where
`fnum` comes from `chooseLoop` over the sorted candidates; otherwise
return `none`. -/
def isDuplicate (files : List MrsFileEntry) (name : String) : Option (Nat × String) :=
  let p := parseName name
  let fname := p.1
  let fnum := p.2.1
  let fext := p.2.2
  let scan := dupScan files fname fext fnum
  match scan.1 with
  | some idx =>
      some (idx, fname ++ " (" ++ Nat.repr (chooseLoop (pySort scan.2) 2) ++ ")" ++ fext)
  | none => none

/-- Modelled from the spec (§4.4): the suggested number is found by
"starting from candidate 2, advance through consecutive integers present
in `N` until the first integer not in `N` is found" — the scan never
stops at an integer that is still in `N`. At most `|N|` advances can
occur, so the fold below reaches the fixed point. -/
def specChooseNum (n : List Nat) : Nat :=
  (List.range (n.length + 1)).foldl (fun c _ => if c ∈ n then c + 1 else c) 2

/-- Modelled from the spec (§4.4): `find_duplicate` with the spec's
wording for the suggested number; same parsing and scan, but the
candidate advances through the member test of `N` rather than through
the source's sorted-list walk. For comparison with `isDuplicate`. -/
def specIsDuplicate (files : List MrsFileEntry) (name : String) : Option (Nat × String) :=
  let p := parseName name
  let fname := p.1
  let fnum := p.2.1
  let fext := p.2.2
  let scan := dupScan files fname fext fnum
  match scan.1 with
  | some idx =>
      some (idx, fname ++ " (" ++ Nat.repr (specChooseNum (pySort scan.2)) ++ ")" ++ fext)
  | none => none

/-! ## Content store and extraction -/

/-- `mrs.__mem_read(offset, bufsize)`: seek to the end to learn the size,
reject `offset >= size` with `BufferError`, otherwise read up to
`bufsize` bytes at `offset`. -/
def memRead (mem : List Nat) (offset bufsize : Nat) : Except MrsError (List Nat) :=
  if mem.length ≤ offset then .error .bufferError
  else .ok ((mem.drop offset).take bufsize)

/-- Python list indexing `files[index]` with negative-index support:
`none` models the `IndexError` raised by the list itself. -/
def pyListIdx (len : Nat) (index : Int) : Option Nat :=
  if index < 0 then
    let j := (len : Int) + index
    if j < 0 then none else some j.toNat
  else if index < (len : Int) then some index.toNat else none

/-- `mrs.read(index)`: the only bounds check is `index >= dir_count`;
the entry's `compressed_size` bytes are then read at its offset and
inflated when the method is Deflate. -/
def readArch (st : ArchiveState) (index : Int) (ext : ExtLib) : Except MrsError (List Nat) :=
  if (st.dirCount : Int) ≤ index then .error .indexError
  else
    match pyListIdx st.files.length index with
    | none => .error .indexError
    | some i =>
        match st.files.get? i with
        | none => .error .indexError
        | some f =>
            match memRead st.mem f.dhOffset f.dhCompressedSize with
            | .error e => .error e
            | .ok b =>
                if f.dhCompression = 8 then
                  match ext.inflateRaw b with
                  | some r => .ok r
                  | none => .error .zlibError
                else .ok b

/-! ## Metadata access -/

/-- The snapshot handed out by `get_file` (the public `mrs_file`). -/
structure MrsFileView where
  index : Int
  name : String
  crc32 : Nat
  size : Nat
  compressedSize : Nat
  ftime : Int
  lhExtra : Option (List Nat)
  dhExtra : Option (List Nat)
  dhComment : Option (List Nat)

/-- `mrs.get_file(index)`: same bounds check as `read`; builds the public
snapshot, the timestamp going through `mktimedos` and `time.mktime`. -/
def getFileArch (st : ArchiveState) (index : Int) (ext : ExtLib) : Except MrsError MrsFileView :=
  if (st.dirCount : Int) ≤ index then .error .indexError
  else
    match pyListIdx st.files.length index with
    | none => .error .indexError
    | some i =>
        match st.files.get? i with
        | none => .error .indexError
        | some f =>
            .ok { index := index
                  name := f.filenameuc
                  crc32 := f.dhCrc32
                  size := f.dhUncompressedSize
                  compressedSize := f.dhCompressedSize
                  ftime := ext.mktime (dosDecode f.dhTimeVal f.dhDateVal)
                  lhExtra := f.lhExtra
                  dhExtra := f.dhExtra
                  dhComment := f.dhComment }

/-- `mrs.set_file(index, file)`: same bounds check; writes back name (with
re-encoding), timestamp (through `localtime` and the struct encoder), and
the extra/comment fields. The source assigns the display name before the
encoding step, so a failed encoding leaves the name already updated. -/
def setFileArch (st : ArchiveState) (index : Int) (v : MrsFileView) (ext : ExtLib) :
    ArchiveState × Except MrsError Unit :=
  if (st.dirCount : Int) ≤ index then (st, .error .indexError)
  else
    match pyListIdx st.files.length index with
    | none => (st, .error .indexError)
    | some i =>
        match st.files.get? i with
        | none => (st, .error .indexError)
        | some f =>
            match ext.encStr v.name with
            | none =>
                ({ st with files := st.files.set i { f with filenameuc := v.name } },
                 .error .unicodeEnc)
            | some (fb, enc) =>
                let tm := ext.localtime v.ftime
                let f2 : MrsFileEntry :=
                  { f with
                    filenameuc := v.name
                    dhFilename := fb
                    filenameenc := enc
                    dhTimeVal := (dosSetTimeS tm).value
                    dhDateVal := (dosSetDateS tm).value
                    lhExtra := v.lhExtra
                    dhExtra := v.dhExtra
                    dhComment := v.dhComment }
                ({ st with files := st.files.set i f2 }, .ok ())

/-! ## Insertion (`mrs.add_file`)

The filesystem part of `add_file` (realpath, existence, directory and
open checks, `getmtime`/`getsize`, reading the source bytes) is an
external collaborator: the source content and its mtime arrive as
arguments. `getsize` equals the length of the bytes read. -/

def addFile (st : ArchiveState) (finalName0 : String) (content : List Nat) (ftime : Int)
    (onDupe : DupeBehavior) (ext : ExtLib) : ArchiveState × Except MrsError Unit :=
  let finalName1 := pyReplaceSlash finalName0
  if !isValidFilename finalName1 then (st, .error .invalidName)
  else
    let dup := isDuplicate st.files finalName1
    if dup.isSome && onDupe == .keepOld then (st, .error .dupError)
    else
      let finalName :=
        match dup, onDupe with
        | some d, .keepBoth => d.2
        | _, _ => finalName1
      match ext.encStr finalName with
      | none => (st, .error .unicodeEnc)
      | some (fnBytes, enc) =>
          let fsize := content.length
          let tm := ext.localtime ftime
          let crc := if fsize > 0 then ext.crc32 content else 0
          let cc : List Nat × Nat :=
            if fsize > 0 then
              match ext.deflateNoFlush content with
              | some cb => (cb, 8)
              | none => (content, 0)
            else (content, 0)
          let cbuf := cc.1
          let off := st.mem.length
          let f : MrsFileEntry :=
            { filenameuc := finalName
              filenameenc := enc
              dhFilename := fnBytes
              dhCrc32 := crc
              dhCompressedSize := cbuf.length
              dhUncompressedSize := fsize
              dhCompression := cc.2
              dhOffset := off
              dhTimeVal := (dosSetTimeS tm).value
              dhDateVal := (dosSetDateS tm).value
              lhExtra := none
              dhExtra := none
              dhComment := none }
          match dup, onDupe with
          | some d, .keepNew =>
              ({ st with files := st.files.set d.1 f, mem := st.mem ++ cbuf }, .ok ())
          | _, _ =>
              ({ files := st.files ++ [f]
                 dirCount := st.dirCount + 1
                 mem := st.mem ++ cbuf }, .ok ())

/-! ## Binary header codecs (little-endian) -/

/-- Read a little-endian u16 at offset `o` (missing bytes read as 0; all
call sites guard the buffer length first, as `struct.unpack_from` raises
on a short buffer). -/
def le16 (b : List Nat) (o : Nat) : Nat := b.getD o 0 + 256 * b.getD (o + 1) 0

/-- Read a little-endian u32 at offset `o`. -/
def le32 (b : List Nat) (o : Nat) : Nat := le16 b o + 65536 * le16 b (o + 2)

/-- `_mrs_hdr` (Base Header, 22 bytes, format `<IHHHHIIH`). -/
structure MrsHdr where
  signature : Nat
  diskNum : Nat
  diskStart : Nat
  dirCount : Nat
  totalDirCount : Nat
  dirSize : Nat
  dirOffset : Nat
  commentLength : Nat
deriving Repr, DecidableEq

/-- `_mrs_hdr.read`. -/
def parseMrsHdr (b : List Nat) : MrsHdr :=
  { signature := le32 b 0
    diskNum := le16 b 4
    diskStart := le16 b 6
    dirCount := le16 b 8
    totalDirCount := le16 b 10
    dirSize := le32 b 12
    dirOffset := le32 b 16
    commentLength := le16 b 20 }

/-- `_mrs_local_hdr` fixed prefix (30 bytes, format `<IHHHHHIIIHH`). -/
structure LocalHdr where
  signature : Nat
  version : Nat
  flags : Nat
  compression : Nat
  ftime : Nat
  fdate : Nat
  crc32 : Nat
  compressedSize : Nat
  uncompressedSize : Nat
  filenameLength : Nat
  extraLength : Nat
deriving Repr, DecidableEq

/-- `_mrs_local_hdr.read`. -/
def parseLocalHdr (b : List Nat) : LocalHdr :=
  { signature := le32 b 0
    version := le16 b 4
    flags := le16 b 6
    compression := le16 b 8
    ftime := le16 b 10
    fdate := le16 b 12
    crc32 := le32 b 14
    compressedSize := le32 b 18
    uncompressedSize := le32 b 22
    filenameLength := le16 b 26
    extraLength := le16 b 28 }

/-- `_mrs_central_dir_hdr` (46-byte fixed prefix, format `<IHHHHHHIIIHHHHHII`,
then filename/extra/comment slices, present only when their length fields
are nonzero). -/
structure CentralHdr where
  signature : Nat
  versionMade : Nat
  versionNeeded : Nat
  flags : Nat
  compression : Nat
  ftime : Nat
  fdate : Nat
  crc32 : Nat
  compressedSize : Nat
  uncompressedSize : Nat
  filenameLength : Nat
  extraLength : Nat
  commentLength : Nat
  diskStart : Nat
  intAttr : Nat
  extAttr : Nat
  offset : Nat
  filename : Option (List Nat)
  extra : Option (List Nat)
  comment : Option (List Nat)
deriving Repr, DecidableEq

/-- `_mrs_central_dir_hdr.read`. -/
def parseCentralHdr (b : List Nat) : CentralHdr :=
  let fl := le16 b 28
  let el := le16 b 30
  let cl := le16 b 32
  { signature := le32 b 0
    versionMade := le16 b 4
    versionNeeded := le16 b 6
    flags := le16 b 8
    compression := le16 b 10
    ftime := le16 b 12
    fdate := le16 b 14
    crc32 := le32 b 16
    compressedSize := le32 b 20
    uncompressedSize := le32 b 24
    filenameLength := fl
    extraLength := el
    commentLength := cl
    diskStart := le16 b 34
    intAttr := le16 b 36
    extAttr := le32 b 38
    offset := le32 b 42
    filename := if fl ≠ 0 then some ((b.drop 46).take fl) else none
    extra := if el ≠ 0 then some ((b.drop (46 + fl)).take el) else none
    comment := if cl ≠ 0 then some ((b.drop (46 + fl + el)).take cl) else none }

/-! ## Merge (`mrs.add_mrs`) -/

/-- The decrypt-hook registry (`mrs_encryption` instance held in
`mrs.__decrypt`): four optional transform slots. -/
structure DecRegistry where
  baseHdr : Option (List Nat → Nat → List Nat)
  localHdr : Option (List Nat → Nat → List Nat)
  centralDirHdr : Option (List Nat → Nat → List Nat)
  bufferHook : Option (List Nat → Nat → List Nat)

/-- An empty registry (all hooks unset). -/
def noHooks : DecRegistry := ⟨none, none, none, none⟩

/-- One iteration of the central-directory walk of `add_mrs`, for one
incoming entry. Takes the remaining directory buffer and the current
content store; returns the store (extended when the payload was appended
before a failure) with either an error or the staged entry, its duplicate
lookup against the pre-merge directory, and the byte count by which the
directory buffer advances. The foreign file cursor follows the source:
local header at the entry's stored offset, skip the local filename, read
the extra field (decrypted with the built-in default transform, not the
hook), then the payload. -/
def addMrsStep (ext : ExtLib) (sigchk : Option (SigWhere → Nat → Bool))
    (localF : List Nat → Nat → List Nat) (fdata : List Nat) (baseName : Option String)
    (onDupe : DupeBehavior) (origFiles : List MrsFileEntry) (cdirB : List Nat)
    (mem : List Nat) :
    List Nat × Except MrsError (MrsFileEntry × Option (Nat × String) × Nat) :=
  if cdirB.length < 46 then (mem, .error .structError)
  else
    let dh := parseCentralHdr cdirB
    if !sigAccepted sigchk .centralDirHdr dh.signature then (mem, .error .invalidEncryption)
    else
      match dh.filename with
      | none => (mem, .error .unicodeDec)
      | some fnBytes0 =>
          match ext.decStr fnBytes0 with
          | none => (mem, .error .unicodeDec)
          | some (nameuc0, enc) =>
              let nameuc1 :=
                match baseName with
                | some bn => bn ++ "/" ++ nameuc0
                | none => nameuc0
              if !isValidFilename nameuc1 then (mem, .error .invalidName)
              else if fdata.length < dh.offset + 30 then (mem, .error .structError)
              else
                let lhB := localF ((fdata.drop dh.offset).take 30) 30
                let lh := parseLocalHdr lhB
                if !sigAccepted sigchk .localHdr lh.signature then (mem, .error .invalidEncryption)
                else
                  let cur0 := dh.offset + 30 + lh.filenameLength
                  let extraRead := (fdata.drop cur0).take lh.extraLength
                  let lhExtra :=
                    if lh.extraLength ≠ 0 then
                      some (defaultDecrypt extraRead lh.extraLength)
                    else none
                  let cur1 := cur0 + extraRead.length
                  let payload : Option (Nat × List Nat) :=
                    if dh.compressedSize ≠ 0 then
                      let fbuf := (fdata.drop cur1).take dh.compressedSize
                      if dh.compression = 8 then
                        match ext.inflateRaw fbuf with
                        | none => none
                        | some _ => some (mem.length, fbuf)
                      else some (mem.length, fbuf)
                    else some (0, [])
                  match payload with
                  | none => (mem, .error .zlibError)
                  | some (off, app) =>
                      let mem2 := mem ++ app
                      let dup := isDuplicate origFiles nameuc1
                      if dup.isSome && onDupe == .keepOld then (mem2, .error .dupError)
                      else
                        let nameuc2 :=
                          match dup, onDupe with
                          | some d, .keepBoth => d.2
                          | _, _ => nameuc1
                        let offNext := 46 + dh.filenameLength + dh.extraLength + dh.commentLength
                        let fnBytes2 := ext.encWith nameuc2 enc
                        let entry : MrsFileEntry :=
                          { filenameuc := nameuc2
                            filenameenc := enc
                            dhFilename := fnBytes2
                            dhCrc32 := dh.crc32
                            dhCompressedSize := dh.compressedSize
                            dhUncompressedSize := dh.uncompressedSize
                            dhCompression := dh.compression
                            dhOffset := off
                            dhTimeVal := dh.ftime
                            dhDateVal := dh.fdate
                            lhExtra := lhExtra
                            dhExtra := dh.extra
                            dhComment := dh.comment }
                        (mem2, .ok (entry, dup, offNext))

/-- The `for i in range(hdr.dir_count)` walk: stage each incoming entry,
threading the content store and consuming the directory buffer. -/
def addMrsWalk (ext : ExtLib) (sigchk : Option (SigWhere → Nat → Bool))
    (localF : List Nat → Nat → List Nat) (fdata : List Nat) (baseName : Option String)
    (onDupe : DupeBehavior) (origFiles : List MrsFileEntry) :
    Nat → List Nat → List Nat → List (MrsFileEntry × Option (Nat × String)) →
    List Nat × Except MrsError (List (MrsFileEntry × Option (Nat × String)))
  | 0, _, mem, acc => (mem, .ok acc)
  | k + 1, cdirB, mem, acc =>
      match addMrsStep ext sigchk localF fdata baseName onDupe origFiles cdirB mem with
      | (mem2, .error e) => (mem2, .error e)
      | (mem2, .ok (f, dup, offNext)) =>
          addMrsWalk ext sigchk localF fdata baseName onDupe origFiles k
            (cdirB.drop offNext) mem2 (acc ++ [(f, dup)])

/-- The commit loop of `add_mrs`, run only after every entry staged
successfully: a staged entry whose duplicate lookup hit, under KeepNew,
replaces in place; otherwise it is appended and the directory counter
grows. -/
def addMrsCommit (onDupe : DupeBehavior)
    (staged : List (MrsFileEntry × Option (Nat × String)))
    (files : List MrsFileEntry) (cnt : Nat) : List MrsFileEntry × Nat :=
  staged.foldl
    (fun (p : List MrsFileEntry × Nat) q =>
      match q.2, onDupe with
      | some d, .keepNew => (p.1.set d.1 q.1, p.2)
      | _, _ => (p.1 ++ [q.1], p.2 + 1))
    (files, cnt)

/-- The outcome of `add_mrs`: the archive state after the call, the
result, and whether the foreign file handle was closed (`fp.close()`
appears once, after the commit loop). -/
structure MergeResult where
  state : ArchiveState
  result : Except MrsError Unit
  fpClosed : Bool
deriving Repr

/-- `mrs.add_mrs(name)`, over the foreign file's bytes `fdata`. Resolves
the decrypt hooks (base slot falls back to the built-in default; the
local and central-directory slots each fall back to the resolved base
slot), reads and validates the trailing Base Header, reads the central
directory, walks it, and commits. Filesystem externals (realpath,
existence and directory checks, opening) are the caller's; a file
shorter than 22 bytes makes the initial `seek(-22, SEEK_END)` raise. -/
def addMrs (st : ArchiveState) (fdata : List Nat) (baseName : Option String)
    (onDupe : DupeBehavior) (dec : DecRegistry) (sigchk : Option (SigWhere → Nat → Bool))
    (ext : ExtLib) : MergeResult :=
  if fdata.length < 22 then ⟨st, .error .osError, false⟩
  else
    let baseF := dec.baseHdr.getD defaultDecrypt
    let localF := dec.localHdr.getD baseF
    let centralF := dec.centralDirHdr.getD baseF
    let hdrB := baseF ((fdata.drop (fdata.length - 22)).take 22) 22
    let hdr := parseMrsHdr hdrB
    if !sigAccepted sigchk .baseHdr hdr.signature then ⟨st, .error .notAMrsFile, false⟩
    else
      let cdirRaw := (fdata.drop hdr.dirOffset).take hdr.dirSize
      if cdirRaw.length ≠ hdr.dirSize then ⟨st, .error .notAMrsFile, false⟩
      else
        let cdirB := centralF cdirRaw hdr.dirSize
        match addMrsWalk ext sigchk localF fdata baseName onDupe st.files hdr.dirCount
            cdirB st.mem [] with
        | (mem2, .error e) => ⟨{ st with mem := mem2 }, .error e, false⟩
        | (mem2, .ok staged) =>
            let fc := addMrsCommit onDupe staged st.files st.dirCount
            ⟨⟨fc.1, fc.2, mem2⟩, .ok (), true⟩

/-! ## Concrete fixtures

Byte-level archive images used to exercise the operations on concrete
inputs. The headers are written plain and then passed through the
program's own `__mrs_default_encrypt`, so that the default decrypt chain
recovers them during a merge. -/

/-- Serialize a u16 little-endian. -/
def mkLE16 (v : Nat) : List Nat := [v % 256, v / 256 % 256]

/-- Serialize a u32 little-endian. -/
def mkLE32 (v : Nat) : List Nat :=
  [v % 256, v / 256 % 256, v / 65536 % 256, v / 16777216 % 256]

/-- ASCII bytes of a string. -/
def asciiBytes (s : String) : List Nat := s.data.map Char.toNat

/-- A plain (unencrypted) local header with the given compression, sizes
and filename length. -/
def plainLocalHdr (compression csize usize fnlen : Nat) : List Nat :=
  mkLE32 mrsLocalMagic1 ++ mkLE16 mrsLocalVer ++ mkLE16 0 ++ mkLE16 compression ++
    mkLE16 0 ++ mkLE16 0 ++ mkLE32 0 ++ mkLE32 csize ++ mkLE32 usize ++
    mkLE16 fnlen ++ mkLE16 0

/-- A plain central-directory header (no extra, no comment). -/
def plainCentralHdr (compression csize usize fnlen offset : Nat) : List Nat :=
  mkLE32 mrsCentralMagic1 ++ mkLE16 mrsCentralVerMade ++ mkLE16 mrsCentralVerNeeded ++
    mkLE16 0 ++ mkLE16 compression ++ mkLE16 0 ++ mkLE16 0 ++ mkLE32 0 ++
    mkLE32 csize ++ mkLE32 usize ++ mkLE16 fnlen ++ mkLE16 0 ++ mkLE16 0 ++
    mkLE16 0 ++ mkLE16 0 ++ mkLE32 0 ++ mkLE32 offset

/-- A plain base header: one disk, `dirCount` entries. -/
def plainBaseHdr (dirCount dirSize dirOffset : Nat) : List Nat :=
  mkLE32 mrsHdrMagic1 ++ mkLE16 0 ++ mkLE16 0 ++ mkLE16 dirCount ++ mkLE16 dirCount ++
    mkLE32 dirSize ++ mkLE32 dirOffset ++ mkLE16 0

/-- `_dec_str` restricted to its ASCII-agreement domain (all three codecs
in the chain decode ASCII identically; codec id 0 stands for `mbcs`). -/
def asciiDecStr (b : List Nat) : Option (String × Nat) :=
  if b.all (fun x => x < 128) then some (String.mk (b.map Char.ofNat), 0) else none

/-- `_enc_str` on the same domain. -/
def asciiEncStr (s : String) : Option (List Nat × Nat) :=
  if s.data.all (fun c => c.toNat < 128) then some (s.data.map Char.toNat, 0) else none

/-- A concrete collaborator bundle for evaluating the operations:
`deflateNoFlush` returns the empty byte string, which is what
`zlib.compressobj(9, 8, -15).compress(buf)` produces (without `flush`,
zlib buffers its whole output for inputs of ordinary size);
`inflateRaw` fails, as `zlib.decompress` does on such a truncated
stream. -/
def ext0 : ExtLib :=
  { crc32 := fun _ => 0
    deflateNoFlush := fun _ => some []
    inflateRaw := fun _ => none
    localtime := fun _ => ⟨1980, 1, 1, 0, 0, 0⟩
    mktime := fun _ => 0
    decStr := asciiDecStr
    encStr := asciiEncStr
    encWith := fun s _ => s.data.map Char.toNat }

def nameATxt : String := "a.txt"
def nameBTxt : String := "b.txt"
def nameA1Txt : String := "a (1).txt"
def nameA2Txt : String := "a (2).txt"
def nameA3Txt : String := "a (3).txt"
def nameA4Txt : String := "a (4).txt"
def nameA5Txt : String := "a (5).txt"

/-- A well-formed single-entry foreign archive: one Store-method entry
named `a.txt` with payload `[120, 121]`. Local header at offset 0,
payload at 35, central directory at 37 (51 bytes), base header last. -/
def blobA : List Nat :=
  defaultEncrypt (plainLocalHdr 0 2 2 5) 30 ++ asciiBytes nameATxt ++ [120, 121] ++
    defaultEncrypt (plainCentralHdr 0 2 2 5 0 ++ asciiBytes nameATxt) 51 ++
    defaultEncrypt (plainBaseHdr 1 51 37) 22

/-- A foreign archive holding two entries that carry the same display
name `b.txt` (Store method, payloads `[1]` and `[2]`). Entry layout:
local headers at 0 and 36, payloads at 35 and 71, central directory at
72 (two 51-byte records), base header last. -/
def blobB : List Nat :=
  defaultEncrypt (plainLocalHdr 0 1 1 5) 30 ++ asciiBytes nameBTxt ++ [1] ++
    defaultEncrypt (plainLocalHdr 0 1 1 5) 30 ++ asciiBytes nameBTxt ++ [2] ++
    defaultEncrypt
      (plainCentralHdr 0 1 1 5 0 ++ asciiBytes nameBTxt ++
       plainCentralHdr 0 1 1 5 36 ++ asciiBytes nameBTxt) 102 ++
    defaultEncrypt (plainBaseHdr 2 102 72) 22

/-- A 22-byte file of zeros: long enough to seek, but its decrypted
trailer carries no valid signature. -/
def blobZeros : List Nat := List.replicate 22 0

/-- An archive entry fixture with display name `nm`, Store method,
`csize` payload bytes at `off`. -/
def mkEntry (nm : String) (off csize : Nat) : MrsFileEntry :=
  { filenameuc := nm
    filenameenc := 0
    dhFilename := asciiBytes nm
    dhCrc32 := 0
    dhCompressedSize := csize
    dhUncompressedSize := csize
    dhCompression := 0
    dhOffset := off
    dhTimeVal := 0
    dhDateVal := 0
    lhExtra := none
    dhExtra := none
    dhComment := none }

/-- The empty archive (`mrs()` freshly constructed). -/
def emptyArchive : ArchiveState := ⟨[], 0, []⟩

/-- An archive already holding `a.txt` with two stored bytes. -/
def archiveWithA : ArchiveState := ⟨[mkEntry nameATxt 0 2], 1, [120, 121]⟩

/-- An archive holding the four display names of the spec's duplicate
numbering example. -/
def archiveFour : ArchiveState :=
  ⟨[mkEntry nameATxt 0 1, mkEntry nameA2Txt 1 1, mkEntry nameA3Txt 2 1,
    mkEntry nameA5Txt 3 1], 4, [10, 11, 12, 13]⟩

/-! ## Decrypt-hook resolution, tracked symbolically

`add_mrs` resolves the three header decrypt hooks at entry:

```
_decrypt.base_hdr        = __decrypt.base_hdr        or default
_decrypt.local_hdr       = __decrypt.local_hdr       or _decrypt.base_hdr
_decrypt.central_dir_hdr = __decrypt.central_dir_hdr or _decrypt.base_hdr
```

To reason about which function ends up in each slot, hooks are tracked
here by identity. -/

/-- A resolved transform: a registered hook (by identity) or the built-in
default. -/
inductive ResolvedHook where
  | custom (id : Nat)
  | builtinDefault
deriving Repr, DecidableEq

/-- The registry `mrs.__decrypt` with hooks tracked by identity. -/
structure HookSlots where
  baseHdr : Option Nat
  localHdr : Option Nat
  centralDirHdr : Option Nat
  bufferHook : Option Nat
deriving Repr, DecidableEq

/-- The resolved slots used by the merge. -/
structure ResolvedSlots where
  baseHdr : ResolvedHook
  localHdr : ResolvedHook
  centralDirHdr : ResolvedHook
deriving Repr, DecidableEq

/-- The three resolution assignments at the top of `add_mrs`. -/
def resolveDecrypt (d : HookSlots) : ResolvedSlots :=
  let base :=
    match d.baseHdr with
    | some h => ResolvedHook.custom h
    | none => ResolvedHook.builtinDefault
  let lcl :=
    match d.localHdr with
    | some h => ResolvedHook.custom h
    | none => base
  let cen :=
    match d.centralDirHdr with
    | some h => ResolvedHook.custom h
    | none => base
  ⟨base, lcl, cen⟩

/-- Modelled from the spec (§4.3 and the claim): the central-directory
slot is said to fall back to the local-header slot's hook, then to the
base-header slot's hook, and only then to the default. For comparison
with `resolveDecrypt`. -/
def specResolveCentral (d : HookSlots) : ResolvedHook :=
  match d.centralDirHdr with
  | some h => .custom h
  | none =>
      match d.localHdr with
      | some h => .custom h
      | none =>
          match d.baseHdr with
          | some h => .custom h
          | none => .builtinDefault

/-- A registry with only a local-header hook registered. -/
def hookSlotsLocalOnly : HookSlots := ⟨none, some 7, none, none⟩

/-! ## Fixture names for validation -/

def nameConTxt : String := "CON.txt"
def nameAngleTxt : String := "a<b.txt"
def nameCtrlTxt : String := String.mk ['a', Char.ofNat 1, 'b', '.', 't', 'x', 't']
def nameDotsTxt : String := "a.b.txt"
def nameCom10Txt : String := "COM10.txt"

/-! ## Byte-level facts about the default transforms -/

set_option maxRecDepth 8192 in
lemma decByte_encByte : ∀ b < 256, decByte (encByte b) = b := by decide

set_option maxRecDepth 8192 in
lemma encByte_decByte : ∀ b < 256, encByte (decByte b) = b := by decide

set_option maxRecDepth 8192 in
lemma decByte_eq_ror : ∀ b < 256, decByte b = Nat.xor (ror3b b) 255 := by decide

set_option maxRecDepth 8192 in
lemma encByte_eq_rol : ∀ b < 256, encByte b = rol3b (Nat.xor b 255) := by decide

lemma defaultDecrypt_full (l : List Nat) : defaultDecrypt l l.length = l.map decByte := by
  simp [defaultDecrypt]

lemma defaultEncrypt_full (l : List Nat) : defaultEncrypt l l.length = l.map encByte := by
  simp [defaultEncrypt]

/-- **C8.** The default decrypt transform maps each byte to
`NOT (rotate_right(byte, 3))` over 8 bits, the default encrypt transform
maps each byte to `rotate_left(NOT byte, 3)`, and on byte strings the two
are exact inverses in both orders. -/
theorem c8_default_transforms (l : List Nat) (h : ∀ b ∈ l, b < 256) :
    defaultDecrypt l l.length = l.map (fun b => Nat.xor (ror3b b) 255) ∧
    defaultEncrypt l l.length = l.map (fun b => rol3b (Nat.xor b 255)) ∧
    defaultDecrypt (defaultEncrypt l l.length) (defaultEncrypt l l.length).length = l ∧
    defaultEncrypt (defaultDecrypt l l.length) (defaultDecrypt l l.length).length = l := by
  refine ⟨?_, ?_, ?_, ?_⟩
  · rw [defaultDecrypt_full]
    exact List.map_congr_left fun b hb => decByte_eq_ror b (h b hb)
  · rw [defaultEncrypt_full]
    exact List.map_congr_left fun b hb => encByte_eq_rol b (h b hb)
  · rw [defaultEncrypt_full, defaultDecrypt_full, List.map_map]
    have : ∀ b ∈ l, (decByte ∘ encByte) b = id b :=
      fun b hb => decByte_encByte b (h b hb)
    rw [List.map_congr_left this, List.map_id]
  · rw [defaultDecrypt_full, defaultEncrypt_full, List.map_map]
    have : ∀ b ∈ l, (encByte ∘ decByte) b = id b :=
      fun b hb => encByte_decByte b (h b hb)
    rw [List.map_congr_left this, List.map_id]

/-- Witness for C8 at the concrete byte string `[0, 1, 100, 202, 255]`. -/
theorem c8_default_transforms_witness :
    (∀ b ∈ [0, 1, 100, 202, 255], b < 256) ∧
    (defaultDecrypt [0, 1, 100, 202, 255] 5 =
      [0, 1, 100, 202, 255].map (fun b => Nat.xor (ror3b b) 255) ∧
     defaultEncrypt [0, 1, 100, 202, 255] 5 =
      [0, 1, 100, 202, 255].map (fun b => rol3b (Nat.xor b 255)) ∧
     defaultDecrypt (defaultEncrypt [0, 1, 100, 202, 255] 5)
        (defaultEncrypt [0, 1, 100, 202, 255] 5).length = [0, 1, 100, 202, 255] ∧
     defaultEncrypt (defaultDecrypt [0, 1, 100, 202, 255] 5)
        (defaultDecrypt [0, 1, 100, 202, 255] 5).length = [0, 1, 100, 202, 255]) :=
  ⟨by decide, c8_default_transforms [0, 1, 100, 202, 255] (by decide)⟩

/-! ## C2: the timestamp codec -/

/-- The wall-clock time 1999-12-31 23:58:45. -/
def tm1999 : TmStruct := ⟨1999, 12, 31, 23, 58, 45⟩

/-- **C2.** Decoding the encoded DOS pair does *not* reproduce the date
components: the int branches of `set_time`/`set_date` mask before
shifting, so the decoded year collapses to 1980, month to 0, hour to 0
and minute to 0; only the day and the even-rounded seconds survive.
Evaluated at 1999-12-31 23:58:45. -/
theorem c2_dostime_decode_loses_date :
    dosDecode (dosSetTimeS tm1999).value (dosSetDateS tm1999).value =
      ⟨1980, 0, 31, 0, 0, 44⟩ ∧
    (dosDecode (dosSetTimeS tm1999).value (dosSetDateS tm1999).value).tmMon ≠ tm1999.tmMon ∧
    (dosDecode (dosSetTimeS tm1999).value (dosSetDateS tm1999).value).tmYear ≠ tm1999.tmYear ∧
    (dosDecode (dosSetTimeS tm1999).value (dosSetDateS tm1999).value).tmMday = tm1999.tmMday ∧
    (dosDecode (dosSetTimeS tm1999).value (dosSetDateS tm1999).value).tmSec = 44 := by
  decide

/-! ## C1: insertion/extraction round trip -/

set_option maxRecDepth 100000 in
/-- **C1.** Reading back an entry added by `add_file` fails instead of
returning the source bytes. Zero-length path: the payload is empty, the
entry's offset equals the store size, and `__mem_read` rejects
`offset >= size` with `BufferError`. Deflate path: `compress()` is never
flushed, so (as observed from zlib) it yields `b''`; the stored entry has
`compression = 8` and `compressed_size = 0`, and reading fails the same
way — never the original content. -/
theorem c1_roundtrip_fails :
    (addFile emptyArchive nameATxt [] 0 .keepNew ext0).2 = .ok () ∧
    (addFile emptyArchive nameATxt [] 0 .keepNew ext0).1.dirCount = 1 ∧
    readArch (addFile emptyArchive nameATxt [] 0 .keepNew ext0).1 0 ext0 =
      .error .bufferError ∧
    (addFile emptyArchive nameBTxt [5] 0 .keepNew ext0).2 = .ok () ∧
    ((addFile emptyArchive nameBTxt [5] 0 .keepNew ext0).1.files.map
      fun f => (f.dhCompression, f.dhCompressedSize)) = [(8, 0)] ∧
    readArch (addFile emptyArchive nameBTxt [5] 0 .keepNew ext0).1 0 ext0 =
      .error .bufferError := by
  refine ⟨?_, ?_, ?_, ?_, ?_, ?_⟩ <;> rfl

/-! ## C4: the foreign handle during merge -/

set_option maxRecDepth 100000 in
/-- **C4.** `fp.close()` is executed only on the success path of
`add_mrs`: a signature failure and a KeepOld duplicate failure both
return with the handle still open, while a successful merge closes it. -/
theorem c4_handle_only_closed_on_success :
    (addMrs emptyArchive blobZeros none .keepNew noHooks none ext0).result =
      .error .notAMrsFile ∧
    (addMrs emptyArchive blobZeros none .keepNew noHooks none ext0).fpClosed = false ∧
    (addMrs archiveWithA blobA none .keepOld noHooks none ext0).result =
      .error .dupError ∧
    (addMrs archiveWithA blobA none .keepOld noHooks none ext0).fpClosed = false ∧
    (addMrs emptyArchive blobA none .keepNew noHooks none ext0).result = .ok () ∧
    (addMrs emptyArchive blobA none .keepNew noHooks none ext0).fpClosed = true := by
  refine ⟨?_, ?_, ?_, ?_, ?_, ?_⟩ <;> rfl

/-! ## C10: merge duplicate checks see only the pre-merge directory -/

set_option maxRecDepth 100000 in
/-- **C10.** Merging a foreign archive that contains two entries with the
same display name: each incoming entry's duplicate lookup runs against
the directory as it was before the call (`self.__files`, mutated only in
the commit loop), so neither lookup hits, and under KeepBoth both
entries are committed carrying identical display names. -/
theorem c10_merge_dups_staged_not_consulted :
    isDuplicate emptyArchive.files nameBTxt = none ∧
    (addMrs emptyArchive blobB none .keepBoth noHooks none ext0).result = .ok () ∧
    (addMrs emptyArchive blobB none .keepBoth noHooks none ext0).state.dirCount = 2 ∧
    ((addMrs emptyArchive blobB none .keepBoth noHooks none ext0).state.files.map
      fun f => f.filenameuc) = [nameBTxt, nameBTxt] ∧
    (addMrs emptyArchive blobB none .keepBoth noHooks none ext0).state.mem = [1, 2] := by
  refine ⟨?_, ?_, ?_, ?_, ?_⟩ <;> rfl

/-! ## C3: decrypt-hook fallback chain -/

/-- **C3 counterexample.** With only a local-header hook registered, the
code resolves the central-directory slot to the built-in default (it
falls back directly to the resolved base slot), while the claimed chain
would resolve it to the local-header hook. -/
theorem c3_fallback_counterexample :
    (resolveDecrypt hookSlotsLocalOnly).centralDirHdr = .builtinDefault ∧
    specResolveCentral hookSlotsLocalOnly = .custom 7 ∧
    (resolveDecrypt hookSlotsLocalOnly).centralDirHdr ≠
      specResolveCentral hookSlotsLocalOnly := by
  decide

/-- **C3 amended.** The implemented resolution: the base slot resolves to
its own hook or the default; the local and central-directory slots each
resolve to their own hook, falling back to the *resolved base slot* (not
to each other); the default is used at a slot exactly when neither that
slot nor the base slot has a hook. -/
theorem c3_fallback_amended (d : HookSlots) :
    (resolveDecrypt d).baseHdr =
      (match d.baseHdr with
       | some h => ResolvedHook.custom h
       | none => ResolvedHook.builtinDefault) ∧
    (resolveDecrypt d).localHdr =
      (match d.localHdr with
       | some h => ResolvedHook.custom h
       | none => (resolveDecrypt d).baseHdr) ∧
    (resolveDecrypt d).centralDirHdr =
      (match d.centralDirHdr with
       | some h => ResolvedHook.custom h
       | none => (resolveDecrypt d).baseHdr) ∧
    ((resolveDecrypt d).centralDirHdr = .builtinDefault ↔
      d.centralDirHdr = none ∧ d.baseHdr = none) ∧
    ((resolveDecrypt d).localHdr = .builtinDefault ↔
      d.localHdr = none ∧ d.baseHdr = none) := by
  rcases d with ⟨b, l, c, buf⟩
  cases b <;> cases l <;> cases c <;> simp [resolveDecrypt]

/-! ## C5: duplicate renumbering -/

/-- An archive holding `a.txt`, `a (1).txt`, `a (2).txt`. -/
def archiveThree : ArchiveState :=
  ⟨[mkEntry nameATxt 0 1, mkEntry nameA1Txt 1 1, mkEntry nameA2Txt 2 1], 3, [7, 8, 9]⟩

set_option maxRecDepth 100000 in
/-- **C5 counterexample.** With existing names `a.txt`, `a (1).txt`,
`a (2).txt`, inserting `a.txt` makes the source's loop stop at the first
sorted candidate `1` (it differs from the current candidate `2`) and
suggest `a (2).txt` — a name already present — while the claimed
"advance until the first integer not in N" rule yields `a (3).txt`.
Under KeepBoth the archive then stores a second `a (2).txt`. -/
theorem c5_numbering_counterexample :
    isDuplicate archiveThree.files nameATxt = some (0, nameA2Txt) ∧
    specIsDuplicate archiveThree.files nameATxt = some (0, nameA3Txt) ∧
    isDuplicate archiveThree.files nameATxt ≠
      specIsDuplicate archiveThree.files nameATxt ∧
    ((addFile archiveThree nameATxt [] 0 .keepBoth ext0).1.files.map
      fun f => f.filenameuc) = [nameATxt, nameA1Txt, nameA2Txt, nameA2Txt] :=
  ⟨by rfl, by rfl, by decide, by rfl⟩

lemma chooseLoop_ge (l : List Nat) : ∀ f, f ≤ chooseLoop l f := by
  induction l with
  | nil => intro f; simp [chooseLoop]
  | cons i rest ih =>
      intro f
      by_cases h : i = f
      · simp only [chooseLoop, if_pos h]
        exact le_trans (Nat.le_succ f) (ih (f + 1))
      · simp [chooseLoop, h]

/-- What the renumbering loop computes on a strictly sorted candidate
list all of whose members are at least the starting candidate: the
result is fresh, and everything from the start up to it is present. -/
lemma chooseLoop_spec (l : List Nat) : ∀ f, List.Sorted (· < ·) l → (∀ x ∈ l, f ≤ x) →
    chooseLoop l f ∉ l ∧ ∀ m, f ≤ m → m < chooseLoop l f → m ∈ l := by
  induction l with
  | nil =>
      intro f _ _
      refine ⟨List.not_mem_nil _, ?_⟩
      intro m hm hlt
      simp [chooseLoop] at hlt
      omega
  | cons i rest ih =>
      intro f hs h2
      have hrs : List.Sorted (· < ·) rest := (List.sorted_cons.mp hs).2
      have hig : ∀ y ∈ rest, i < y := (List.sorted_cons.mp hs).1
      by_cases hif : i = f
      · subst hif
        have h2' : ∀ x ∈ rest, i + 1 ≤ x := fun x hx => hig x hx
        obtain ⟨hn, hb⟩ := ih (i + 1) hrs h2'
        have hge : i + 1 ≤ chooseLoop rest (i + 1) := chooseLoop_ge rest (i + 1)
        have hcl : chooseLoop (i :: rest) i = chooseLoop rest (i + 1) := by
          simp [chooseLoop]
        refine ⟨?_, ?_⟩
        · rw [hcl]
          intro hmem
          rcases List.mem_cons.mp hmem with he | hm
          · rw [he] at hge
            omega
          · exact hn hm
        · intro m hm hlt
          rw [hcl] at hlt
          by_cases hmf : m = i
          · exact hmf ▸ List.mem_cons_self i rest
          · have hm1 : i + 1 ≤ m := by omega
            exact List.mem_cons_of_mem _ (hb m hm1 hlt)
      · have hcl : chooseLoop (i :: rest) f = f := by simp [chooseLoop, hif]
        refine ⟨?_, ?_⟩
        · rw [hcl]
          intro hmem
          rcases List.mem_cons.mp hmem with he | hm
          · exact hif he.symm
          · have hi1 := hig f hm
            have hi2 := h2 i (List.mem_cons_self i rest)
            omega
        · intro m hm hlt
          rw [hcl] at hlt
          omega

set_option maxRecDepth 100000 in
/-- **C5 amended.** The loop scans the ascending-sorted candidate list,
incrementing the candidate (which starts at 2) exactly while successive
elements equal it, and stops at the first element that differs — even
one smaller than the candidate, which is why suffixes below 2 (or
repeated suffixes) can halt the scan early and suggest a number still in
use. When the sorted candidates are distinct and all at least 2, this
agrees with the claim: the result is the first integer from 2 upward not
in the list. The spec's concrete example stands: with `a.txt`,
`a (2).txt`, `a (3).txt`, `a (5).txt` present, inserting `a.txt` under
KeepBoth stores `a (4).txt`. -/
theorem c5_numbering_amended (l : List Nat)
    (hs : List.Sorted (· < ·) l) (h2 : ∀ x ∈ l, 2 ≤ x) :
    chooseLoop l 2 ∉ l ∧ 2 ≤ chooseLoop l 2 ∧
    (∀ m, 2 ≤ m → m < chooseLoop l 2 → m ∈ l) ∧
    isDuplicate archiveFour.files nameATxt = some (0, nameA4Txt) ∧
    ((addFile archiveFour nameATxt [] 0 .keepBoth ext0).1.files.map
      fun f => f.filenameuc) =
      [nameATxt, nameA2Txt, nameA3Txt, nameA5Txt, nameA4Txt] := by
  obtain ⟨hn, hb⟩ := chooseLoop_spec l 2 hs h2
  exact ⟨hn, chooseLoop_ge l 2, hb, by rfl, by rfl⟩

set_option maxRecDepth 100000 in
/-- Witness for C5's amended theorem at the sorted candidate list
`[2, 3, 5]` of the spec's example. -/
theorem c5_numbering_amended_witness :
    List.Sorted (· < ·) [2, 3, 5] ∧ (∀ x ∈ [2, 3, 5], 2 ≤ x) ∧
    (chooseLoop [2, 3, 5] 2 ∉ [2, 3, 5] ∧ 2 ≤ chooseLoop [2, 3, 5] 2 ∧
     (∀ m, 2 ≤ m → m < chooseLoop [2, 3, 5] 2 → m ∈ [2, 3, 5]) ∧
     isDuplicate archiveFour.files nameATxt = some (0, nameA4Txt) ∧
     ((addFile archiveFour nameATxt [] 0 .keepBoth ext0).1.files.map
       fun f => f.filenameuc) =
       [nameATxt, nameA2Txt, nameA3Txt, nameA5Txt, nameA4Txt]) :=
  ⟨by decide, by decide, c5_numbering_amended [2, 3, 5] (by decide) (by decide)⟩

/-! ## C7: filename validation -/

set_option maxRecDepth 100000 in
/-- **C7.** `_is_valid_filename` rejects every name containing one of
`< > : " | ? *` or a control byte 1–31, and every name one of whose
backslash segments has an extension-stripped stem that upper-cases into
the reserved list (the device names, `.` and `..`); concretely,
`CON.txt`, `a<b.txt` and a name containing byte 0x01 are rejected, while
`a.b.txt` and `COM10.txt` are accepted. -/
theorem c7_name_validation (name : String)
    (h : (∃ c ∈ name.data, c ∈ invalidCharHead ∨ (1 ≤ c.toNat ∧ c.toNat ≤ 31)) ∨
         ∃ seg ∈ pySegments name, strUpper (splitextStem seg) ∈ invalidNameList) :
    isValidFilename name = false ∧
    isValidFilename nameConTxt = false ∧
    isValidFilename nameAngleTxt = false ∧
    isValidFilename nameCtrlTxt = false ∧
    isValidFilename nameDotsTxt = true ∧
    isValidFilename nameCom10Txt = true := by
  refine ⟨?_, by rfl, by rfl, by rfl, by rfl, by rfl⟩
  unfold isValidFilename
  simp only [Bool.not_eq_false', Bool.or_eq_true, List.any_eq_true, decide_eq_true_eq]
  rcases h with ⟨c, hc, hcc | hctrl⟩ | ⟨seg, hseg, hsegmem⟩
  · exact Or.inl (Or.inl ⟨c, hcc, List.elem_eq_true_of_mem hc⟩)
  · exact Or.inl (Or.inr ⟨c, hc, by simp [hctrl.1, hctrl.2]⟩)
  · exact Or.inr ⟨seg, hseg, List.elem_eq_true_of_mem hsegmem⟩

set_option maxRecDepth 100000 in
/-- Witness for C7 at the name `CON.txt` (reserved stem). -/
theorem c7_name_validation_witness :
    ((∃ c ∈ nameConTxt.data, c ∈ invalidCharHead ∨ (1 ≤ c.toNat ∧ c.toNat ≤ 31)) ∨
      ∃ seg ∈ pySegments nameConTxt, strUpper (splitextStem seg) ∈ invalidNameList) ∧
    (isValidFilename nameConTxt = false ∧
     isValidFilename nameConTxt = false ∧
     isValidFilename nameAngleTxt = false ∧
     isValidFilename nameCtrlTxt = false ∧
     isValidFilename nameDotsTxt = true ∧
     isValidFilename nameCom10Txt = true) :=
  ⟨by decide, c7_name_validation nameConTxt (by decide)⟩

/-! ## C9: negative indices -/

/-- **C9.** For an archive with `n ≥ 1` entries and any index in
`[-n, -1]`, `read`, `get_file` and `set_file` never raise the
out-of-range error — their only bounds check rejects
`index >= dir_count`, which no negative index trips, and Python's
negative list indexing then resolves the entry — and `read(-1)` computes
exactly `read(n-1)`. -/
theorem c9_negative_indices (st : ArchiveState) (ext : ExtLib) (idx : Int) (v : MrsFileView)
    (hcnt : st.dirCount = st.files.length)
    (hn : 1 ≤ st.files.length)
    (hlo : -(st.files.length : Int) ≤ idx)
    (hhi : idx ≤ -1) :
    readArch st idx ext ≠ .error .indexError ∧
    getFileArch st idx ext ≠ .error .indexError ∧
    (setFileArch st idx v ext).2 ≠ .error .indexError ∧
    readArch st (-1) ext = readArch st ((st.files.length : Int) - 1) ext := by
  have hcz : ¬ ((st.dirCount : Int) ≤ idx) := by omega
  have h1 : idx < 0 := by omega
  have h2 : ¬ ((st.files.length : Int) + idx < 0) := by omega
  have hj : pyListIdx st.files.length idx =
      some ((st.files.length : Int) + idx).toNat := by
    simp [pyListIdx, h1, h2]
  have hi : ((st.files.length : Int) + idx).toNat < st.files.length := by omega
  obtain ⟨f, hf⟩ : ∃ f, st.files[((st.files.length : Int) + idx).toNat]? = some f :=
    ⟨_, List.getElem?_eq_getElem hi⟩
  refine ⟨?_, ?_, ?_, ?_⟩
  · unfold readArch
    rw [if_neg hcz, hj]
    simp only [List.get?_eq_getElem?, hf]
    cases hmr : memRead st.mem f.dhOffset f.dhCompressedSize with
    | error e =>
        have he : e = .bufferError := by
          unfold memRead at hmr
          split at hmr
          · injection hmr with h3
            exact h3.symm
          · cases hmr
        simp [hmr, he]
    | ok b =>
        by_cases hc8 : f.dhCompression = 8
        · simp only [hmr, hc8, if_pos]
          cases ext.inflateRaw b <;> simp
        · simp [hmr, hc8]
  · unfold getFileArch
    rw [if_neg hcz, hj]
    simp only [List.get?_eq_getElem?, hf]
    simp
  · unfold setFileArch
    rw [if_neg hcz, hj]
    simp only [List.get?_eq_getElem?, hf]
    cases ext.encStr v.name <;> simp
  · have c1 : ¬ ((st.dirCount : Int) ≤ -1) := by omega
    have c2 : ¬ ((st.dirCount : Int) ≤ (st.files.length : Int) - 1) := by omega
    have h3 : ¬ ((st.files.length : Int) + -1 < 0) := by omega
    have h4 : ¬ ((st.files.length : Int) - 1 < 0) := by omega
    have h5 : (st.files.length : Int) - 1 < (st.files.length : Int) := by omega
    have e1 : pyListIdx st.files.length (-1) = some (st.files.length - 1) := by
      have h6 : ((st.files.length : Int) + -1).toNat = st.files.length - 1 := by omega
      simp [pyListIdx, h3, h6]
    have e2 : pyListIdx st.files.length ((st.files.length : Int) - 1) =
        some (st.files.length - 1) := by
      have h6 : ((st.files.length : Int) - 1).toNat = st.files.length - 1 := by omega
      simp [pyListIdx, h4, h5, h6]
    unfold readArch
    rw [if_neg c1, if_neg c2, e1, e2]

/-- A concrete metadata view used to exercise `set_file`. -/
def viewB : MrsFileView :=
  { index := 0, name := nameBTxt, crc32 := 0, size := 0, compressedSize := 0,
    ftime := 0, lhExtra := none, dhExtra := none, dhComment := none }

/-- Witness for C9 on the one-entry archive at index `-1`. -/
theorem c9_negative_indices_witness :
    (archiveWithA.dirCount = archiveWithA.files.length ∧
     1 ≤ archiveWithA.files.length ∧
     -(archiveWithA.files.length : Int) ≤ -1 ∧ (-1 : Int) ≤ -1) ∧
    (readArch archiveWithA (-1) ext0 ≠ .error .indexError ∧
     getFileArch archiveWithA (-1) ext0 ≠ .error .indexError ∧
     (setFileArch archiveWithA (-1) viewB ext0).2 ≠ .error .indexError ∧
     readArch archiveWithA (-1) ext0 =
       readArch archiveWithA ((archiveWithA.files.length : Int) - 1) ext0) :=
  ⟨⟨rfl, by decide, by decide, by decide⟩,
   c9_negative_indices archiveWithA ext0 (-1) viewB rfl (by decide) (by decide) (by decide)⟩

/-! ## C6: KeepOld failures leave the observable directory intact -/

lemma memRead_append (mem g : List Nat) (off sz : Nat)
    (h1 : off < mem.length) (h2 : off + sz ≤ mem.length) :
    memRead (mem ++ g) off sz = memRead mem off sz := by
  unfold memRead
  rw [List.length_append, if_neg (by omega), if_neg (by omega)]
  congr 1
  rw [List.drop_append_eq_append_drop, List.take_append_eq_append_take]
  have e1 : off - mem.length = 0 := by omega
  have e2 : sz - (mem.drop off).length = 0 := by
    rw [List.length_drop]
    omega
  rw [e1, e2]
  simp

/-- Appending unreferenced bytes to the content store does not change
what `read(0)` returns, provided entry 0's recorded window lies inside
the original store. -/
lemma readArch_zero_append (files : List MrsFileEntry) (cnt : Nat) (mem g : List Nat)
    (ext : ExtLib) (f0 : MrsFileEntry) (rest : List MrsFileEntry)
    (hf : files = f0 :: rest)
    (h1 : f0.dhOffset < mem.length)
    (h2 : f0.dhOffset + f0.dhCompressedSize ≤ mem.length) :
    readArch ⟨files, cnt, mem ++ g⟩ 0 ext = readArch ⟨files, cnt, mem⟩ 0 ext := by
  subst hf
  unfold readArch
  by_cases hc : (cnt : Int) ≤ 0
  · rw [if_pos hc, if_pos hc]
  · rw [if_neg hc, if_neg hc]
    have hp : pyListIdx (f0 :: rest).length 0 = some 0 := by
      simp [pyListIdx]
    rw [hp]
    simp only [List.get?_eq_getElem?]
    simp only [List.getElem?_cons_zero]
    rw [memRead_append mem g f0.dhOffset f0.dhCompressedSize h1 h2]

/-- One walk iteration only ever appends to the content store, including
when it fails after the payload write. -/
lemma addMrsStep_mem (ext : ExtLib) (sigchk : Option (SigWhere → Nat → Bool))
    (localF : List Nat → Nat → List Nat) (fdata : List Nat) (baseName : Option String)
    (onDupe : DupeBehavior) (origFiles : List MrsFileEntry) (cdirB : List Nat)
    (mem : List Nat) :
    ∃ g, (addMrsStep ext sigchk localF fdata baseName onDupe origFiles cdirB mem).1 =
      mem ++ g := by
  unfold addMrsStep
  dsimp only
  repeat' split
  all_goals first
    | exact ⟨[], (List.append_nil mem).symm⟩
    | exact ⟨_, rfl⟩

/-- The whole walk only ever appends to the content store. -/
lemma addMrsWalk_mem (ext : ExtLib) (sigchk : Option (SigWhere → Nat → Bool))
    (localF : List Nat → Nat → List Nat) (fdata : List Nat) (baseName : Option String)
    (onDupe : DupeBehavior) (origFiles : List MrsFileEntry) :
    ∀ (k : Nat) (cdirB mem : List Nat) (acc : List (MrsFileEntry × Option (Nat × String))),
    ∃ g, (addMrsWalk ext sigchk localF fdata baseName onDupe origFiles k cdirB mem acc).1 =
      mem ++ g := by
  intro k
  induction k with
  | zero =>
      intro cdirB mem acc
      exact ⟨[], (List.append_nil mem).symm⟩
  | succ n ih =>
      intro cdirB mem acc
      obtain ⟨g1, hg1⟩ :=
        addMrsStep_mem ext sigchk localF fdata baseName onDupe origFiles cdirB mem
      unfold addMrsWalk
      cases hstep : addMrsStep ext sigchk localF fdata baseName onDupe origFiles cdirB mem with
      | mk mem2 res =>
          rw [hstep] at hg1
          dsimp only at hg1
          cases res with
          | error e => exact ⟨g1, hg1⟩
          | ok val =>
              rcases val with ⟨f, dup, offNext⟩
              obtain ⟨g2, hg2⟩ := ih (cdirB.drop offNext) mem2 (acc ++ [(f, dup)])
              refine ⟨g1 ++ g2, ?_⟩
              dsimp only
              rw [hg2, hg1, List.append_assoc]

/-- `add_mrs` either succeeds, or the directory list and counter are
untouched and the content store has only been appended to (the commit
loop runs only after every entry staged). -/
lemma addMrs_state_or (st : ArchiveState) (fdata : List Nat) (baseName : Option String)
    (onDupe : DupeBehavior) (dec : DecRegistry) (sigchk : Option (SigWhere → Nat → Bool))
    (ext : ExtLib) :
    (addMrs st fdata baseName onDupe dec sigchk ext).result = .ok () ∨
    ((addMrs st fdata baseName onDupe dec sigchk ext).state.files = st.files ∧
     (addMrs st fdata baseName onDupe dec sigchk ext).state.dirCount = st.dirCount ∧
     ∃ g, (addMrs st fdata baseName onDupe dec sigchk ext).state.mem = st.mem ++ g) := by
  unfold addMrs
  dsimp only
  split
  · exact Or.inr ⟨rfl, rfl, ⟨[], (List.append_nil st.mem).symm⟩⟩
  · split
    · exact Or.inr ⟨rfl, rfl, ⟨[], (List.append_nil st.mem).symm⟩⟩
    · split
      · exact Or.inr ⟨rfl, rfl, ⟨[], (List.append_nil st.mem).symm⟩⟩
      · split
        · next mem2 e heq =>
            refine Or.inr ⟨rfl, rfl, ?_⟩
            obtain ⟨g, hg⟩ := addMrsWalk_mem ext sigchk _ fdata baseName onDupe st.files
              (parseMrsHdr _).dirCount _ st.mem []
            rw [heq] at hg
            exact ⟨g, hg⟩
        · exact Or.inl rfl

/-- **C6.** Under KeepOld, a name collision makes the operation fail with
the duplicate-name error and leaves the observable directory unchanged.
For `add_file` the duplicate check precedes every mutation, so the state
is returned as it was; for `add_mrs` a duplicate failure aborts before
the commit loop, so the entry count is unchanged and `read(0)` returns
the same bytes (the store may have grown by unreferenced tail bytes
only). -/
theorem c6_keepold_preserves_directory (st : ArchiveState) (f0 : MrsFileEntry)
    (rest : List MrsFileEntry) (ext : ExtLib)
    (name : String) (content : List Nat) (ftime : Int)
    (fdata : List Nat) (baseName : Option String) (dec : DecRegistry)
    (sigchk : Option (SigWhere → Nat → Bool))
    (hf : st.files = f0 :: rest)
    (h1 : f0.dhOffset < st.mem.length)
    (h2 : f0.dhOffset + f0.dhCompressedSize ≤ st.mem.length)
    (hval : isValidFilename (pyReplaceSlash name) = true)
    (hdup : (isDuplicate st.files (pyReplaceSlash name)).isSome = true)
    (hmrs : (addMrs st fdata baseName .keepOld dec sigchk ext).result = .error .dupError) :
    (addFile st name content ftime .keepOld ext).2 = .error .dupError ∧
    (addFile st name content ftime .keepOld ext).1.dirCount = st.dirCount ∧
    readArch (addFile st name content ftime .keepOld ext).1 0 ext = readArch st 0 ext ∧
    (addMrs st fdata baseName .keepOld dec sigchk ext).state.dirCount = st.dirCount ∧
    readArch (addMrs st fdata baseName .keepOld dec sigchk ext).state 0 ext =
      readArch st 0 ext := by
  have haf : addFile st name content ftime .keepOld ext = (st, .error .dupError) := by
    unfold addFile
    dsimp only
    rw [hval]
    simp [hdup]
  rcases addMrs_state_or st fdata baseName .keepOld dec sigchk ext with hok | ⟨hfi, hdc, g, hm⟩
  · rw [hok] at hmrs
    exact absurd hmrs (by simp)
  · have hstate : (addMrs st fdata baseName .keepOld dec sigchk ext).state =
        ⟨st.files, st.dirCount, st.mem ++ g⟩ := by
      rcases hR : (addMrs st fdata baseName .keepOld dec sigchk ext).state with ⟨a, b, c⟩
      rw [hR] at hfi hdc hm
      dsimp only at hfi hdc hm
      rw [hfi, hdc, hm]
    refine ⟨?_, ?_, ?_, ?_, ?_⟩
    · rw [haf]
    · rw [haf]
    · rw [haf]
    · rw [hstate]
    · rw [hstate]
      exact readArch_zero_append st.files st.dirCount st.mem g ext f0 rest hf h1 h2

set_option maxRecDepth 400000 in
/-- Witness for C6: the one-entry archive holding `a.txt`, a direct
insertion of `a.txt`, and a merge of a foreign archive whose entry is
also named `a.txt`, both under KeepOld. -/
theorem c6_keepold_preserves_directory_witness :
    (archiveWithA.files = mkEntry nameATxt 0 2 :: [] ∧
     (mkEntry nameATxt 0 2).dhOffset < archiveWithA.mem.length ∧
     (mkEntry nameATxt 0 2).dhOffset + (mkEntry nameATxt 0 2).dhCompressedSize ≤
       archiveWithA.mem.length ∧
     isValidFilename (pyReplaceSlash nameATxt) = true ∧
     (isDuplicate archiveWithA.files (pyReplaceSlash nameATxt)).isSome = true ∧
     (addMrs archiveWithA blobA none .keepOld noHooks none ext0).result =
       .error .dupError) ∧
    ((addFile archiveWithA nameATxt [] 0 .keepOld ext0).2 = .error .dupError ∧
     (addFile archiveWithA nameATxt [] 0 .keepOld ext0).1.dirCount =
       archiveWithA.dirCount ∧
     readArch (addFile archiveWithA nameATxt [] 0 .keepOld ext0).1 0 ext0 =
       readArch archiveWithA 0 ext0 ∧
     (addMrs archiveWithA blobA none .keepOld noHooks none ext0).state.dirCount =
       archiveWithA.dirCount ∧
     readArch (addMrs archiveWithA blobA none .keepOld noHooks none ext0).state 0 ext0 =
       readArch archiveWithA 0 ext0) :=
  ⟨⟨rfl, by decide, by decide, by rfl, by rfl, by rfl⟩,
   c6_keepold_preserves_directory archiveWithA (mkEntry nameATxt 0 2) [] ext0
     nameATxt [] 0 blobA none noHooks none
     rfl (by decide) (by decide) (by rfl) (by rfl) (by rfl)⟩
